import Mathlib

/-!
Shallow embedding of the FeedForward intelligence pipeline
(`makeitmakesense.py`, `export_to_json.py`), used to check the
natural-language specification against the code.

String-valued Python operations are modelled over `List Char`; external
collaborators (the `dateutil` date parser, BeautifulSoup tag stripping,
`feedparser` fetching, `xml.etree` parsing) are passed in as explicit
function parameters, since their internals are not part of this repository.
-/

namespace FeedForward

/-! ## Python string primitives -/

/-- Whitespace class used by Python `str.strip`, `str.split` and the regex
class `\s` (ASCII subset; all inputs in the claims are ASCII). -/
def isWs (c : Char) : Bool :=
  c = ' ' || c = '\t' || c = '\n' || c = '\r' || c = '\x0b' || c = '\x0c'

/-- Lowercasing of a character list, matching Python `str.lower` on ASCII text. -/
def lowers (l : List Char) : List Char := l.map Char.toLower

/-- Whether `pre` is an initial segment of `l`. -/
def hasPre : List Char → List Char → Bool
  | [], _ => true
  | _ :: _, [] => false
  | a :: as, b :: bs => a = b && hasPre as bs

/-- Whether `needle` occurs contiguously inside `hay`: Python `needle in hay`. -/
def hasSub (needle : List Char) : List Char → Bool
  | [] => hasPre needle []
  | c :: cs => hasPre needle (c :: cs) || hasSub needle cs

/-- Python `str.strip()` (whitespace from both ends). -/
def pyStrip (s : String) : String :=
  String.mk (((s.toList.dropWhile isWs).reverse.dropWhile isWs).reverse)

/-- Python `str.lower()`. -/
def pyLower (s : String) : String := String.mk (lowers s.toList)

/-- Python substring test `needle in hay`. -/
def pyIn (needle hay : String) : Bool := hasSub needle.toList hay.toList

/-- Python `str.split()` with no argument: split on whitespace runs,
dropping empty fields. -/
def splitWsAux : List Char → List Char → List String
  | [], cur => if cur = [] then [] else [String.mk cur.reverse]
  | c :: cs, cur =>
    if isWs c then
      if cur = [] then splitWsAux cs []
      else String.mk cur.reverse :: splitWsAux cs []
    else splitWsAux cs (c :: cur)

/-- Python `text.split()` (whitespace words). -/
def pySplitWs (s : String) : List String := splitWsAux s.toList []

/-! ## Keyword Matcher — `contains_keywords`, makeitmakesense.py lines 227-249 -/

/-- Model of `PalantirIntelligenceProcessor.contains_keywords(text)`: returns
`(bool, matched)`. Empty keyword list returns `(True, [])`; otherwise a
keyword matches when its lowercase form is a substring of the lowercase
text, and the matched list keeps the configured order (the source builds it
by appending inside a `for keyword in self.keywords` loop, i.e. a filter). -/
def contains_keywords (keywords : List String) (text : String) : Bool × List String :=
  if keywords = [] then (true, [])
  else
    let textLower := pyLower text
    let matched := keywords.filter (fun kw => pyIn (pyLower kw) textLower)
    (decide (matched.length > 0), matched)

/-! ## Recency Filter — `is_recent`, makeitmakesense.py lines 86-124 -/

/-- Result of the external `dateutil.parser.parse` collaborator: a wall-clock
reading in microseconds together with an optional timezone offset
(`none` models a naive datetime). -/
structure ParsedDate where
  wallMicros : Int
  tzOffsetMicros : Option Int
deriving Repr, DecidableEq

/-- Absolute UTC value of a parsed date. A naive datetime gets
`replace(tzinfo=timezone.utc)` in the source, i.e. offset 0. -/
def utcVal (d : ParsedDate) : Int := d.wallMicros - (d.tzOffsetMicros.getD 0)

/-- Microseconds per day: `timedelta(days = n)` as an integer scale. -/
def microsPerDay : Int := 86400000000

/-- One RSS entry as accessed by the pipeline (`feedparser` record; every
field is probed defensively in the source, which `Option` models). -/
structure Entry where
  link : Option String := none
  title : Option String := none
  published : Option String := none
  updated : Option String := none
  contentVals : Option (List String) := none
  summary : Option String := none
  description : Option String := none
deriving Repr, DecidableEq

/-- Date-field selection of `is_recent`: `entry.published` if the attribute
is present, else `entry.updated` (lines 100-103). -/
def entryDateStr (e : Entry) : Option String :=
  match e.published with
  | some s => some s
  | none => e.updated

/-- Model of `PalantirIntelligenceProcessor.is_recent(entry)`. `parseDate` is the
external `dateutil` parser; `none` models a parse failure (the source's
swallowed exception). Absent or unparsable timestamps yield `true`;
otherwise the entry is recent when its UTC value is at least
`now - days_back` days (line 116: `entry_date >= cutoff`). -/
def is_recent (parseDate : String → Option ParsedDate) (nowUtc daysBack : Int)
    (e : Entry) : Bool :=
  match entryDateStr e with
  | none => true
  | some s =>
    match parseDate s with
    | none => true
    | some d => decide (utcVal d ≥ nowUtc - daysBack * microsPerDay)

/-! ## Content Normalizer — `extract_content`, makeitmakesense.py lines 251-284 -/

/-- Model of `PalantirIntelligenceProcessor.extract_content(entry)`. `soup` is the
external BeautifulSoup `get_text` collaborator; `none` models its raised
exception, in which case the source keeps the raw string. Field priority:
a non-empty `content` list first (its first value), else `summary`, else
`description`, else the empty string. -/
def extract_content (soup : String → Option String) (e : Entry) : String :=
  let content :=
    match e.contentVals with
    | some (v :: _) => v
    | _ =>
      match e.summary with
      | some s => s
      | none => e.description.getD ""
  if content = "" then content else (soup content).getD content

/-! ## Summary — `generate_summary`, makeitmakesense.py lines 286-324 -/

/-- Sentence-terminal characters of the split regex `[.!?]+`. -/
def isSentSep (c : Char) : Bool := c = '.' || c = '!' || c = '?'

mutual
/-- Accumulating phase of `re.split` on a character class with `+`:
collect the current field until a separator is hit. -/
def reSplitRuns (p : Char → Bool) : List Char → List Char → List String
  | [], cur => [String.mk cur.reverse]
  | c :: cs, cur =>
    if p c then String.mk cur.reverse :: reSplitSkip p cs
    else reSplitRuns p cs (c :: cur)

/-- Separator-skipping phase of `re.split`: drop the remainder of a maximal
separator run, emitting a final empty field at end of input. -/
def reSplitSkip (p : Char → Bool) : List Char → List String
  | [] => [""]
  | c :: cs => if p c then reSplitSkip p cs else reSplitRuns p cs [c]
end

/-- Model of `re.split(r'[.!?]+', content)` (line 301): fields between maximal runs
of sentence-terminal punctuation, with empty fields at the borders. -/
def splitSentences (s : String) : List String := reSplitRuns isSentSep s.toList []

/-- The per-sentence test of the summary loop (lines 305-312): after
stripping, keep sentences longer than 30 characters containing some matched
keyword case-insensitively. -/
def sentenceQualifies (keywords : List String) (s : String) : Bool :=
  decide (s.length > 30) && keywords.any (fun kw => pyIn (pyLower kw) (pyLower s))

/-- Model of `PalantirIntelligenceProcessor.generate_summary(content, title, keywords)`.
The `title` parameter is unused in the source as well. The loop with its
`break` at six collected sentences equals filter-then-take-6 over the
stripped sentences; the fallback joins the non-empty stripped fields among
the first two split fields; a keyword line is appended whenever the matched
list is non-empty. -/
def generate_summary (content : String) (title : String) (keywords : List String) :
    String :=
  let sentences := splitSentences content
  let stripped := sentences.map pyStrip
  let relevant := (stripped.filter (sentenceQualifies keywords)).take 6
  let base :=
    if relevant ≠ [] then String.intercalate ". " relevant ++ "."
    else
      String.intercalate ". " (((sentences.take 2).map pyStrip).filter (· ≠ "")) ++ "."
  if keywords ≠ [] then
    base ++ "\n\n🎯 Relevant keywords found: " ++ String.intercalate ", " keywords
  else base

/-! ## Entity extraction — `extract_entities`, makeitmakesense.py lines 326-382

Each regex used by the source is transcribed as a deterministic matcher
returning the consumed characters and the rest; the patterns contain only
greedy pieces followed by optional pieces, so no backtracking arises. -/

/-- Case-insensitive literal match at the head of `l`, returning the
original consumed characters and the remainder. -/
def ciTake : List Char → List Char → Option (List Char × List Char)
  | [], rest => some ([], rest)
  | _ :: _, [] => none
  | a :: as, b :: bs =>
    if Char.toLower a = Char.toLower b then
      (ciTake as bs).map (fun m => (b :: m.1, m.2))
    else none

/-- Case-sensitive literal match at the head of `l`. -/
def csTake : List Char → List Char → Option (List Char × List Char)
  | [], rest => some ([], rest)
  | _ :: _, [] => none
  | a :: as, b :: bs =>
    if a = b then (csTake as bs).map (fun m => (b :: m.1, m.2)) else none

/-- First alternative of a regex alternation that matches, in pattern order,
case-insensitively (used under `re.IGNORECASE`). -/
def altTakeCI : List (List Char) → List Char → Option (List Char × List Char)
  | [], _ => none
  | w :: ws, l =>
    match ciTake w l with
    | some r => some r
    | none => altTakeCI ws l

/-- First alternative of a regex alternation that matches, in pattern order,
case-sensitively. -/
def altTakeCS : List (List Char) → List Char → Option (List Char × List Char)
  | [], _ => none
  | w :: ws, l =>
    match csTake w l with
    | some r => some r
    | none => altTakeCS ws l

/-- Scale-word alternation `(?:million|billion|thousand|M|B|K)` of the
amount pattern, in source order. -/
def scaleWords : List (List Char) :=
  ["million".toList, "billion".toList, "thousand".toList, ['M'], ['B'], ['K']]

/-- Character class `[\d,]` of the amount pattern. -/
def isAmtDigit (c : Char) : Bool := c.isDigit || c = ','

/-- The currency class `[\$€£¥]`. -/
def currencySyms : List Char := ['$', '€', '£', '¥']

/-- One match attempt of
`r'[\$€£¥][\d,]+(?:\.\d{2})?\s*(?:million|billion|thousand|M|B|K)?'`
(line 350, compiled with `re.IGNORECASE`) at the head of the input:
currency symbol, a maximal non-empty run of digits/commas, an optional
point followed by exactly two digits, maximal whitespace, and an optional
scale word. -/
def matchAmount : List Char → Option (List Char × List Char)
  | [] => none
  | c :: rest =>
    if currencySyms.contains c then
      let p1 := List.span isAmtDigit rest
      if p1.1 = [] then none
      else
        let p2 : List Char × List Char :=
          match p1.2 with
          | '.' :: d1 :: d2 :: r =>
            if d1.isDigit && d2.isDigit then (['.', d1, d2], r) else ([], p1.2)
          | _ => ([], p1.2)
        let p3 := List.span isWs p2.2
        let p4 : List Char × List Char :=
          match altTakeCI scaleWords p3.2 with
          | some m => m
          | none => ([], p3.2)
        some (c :: (p1.1 ++ p2.1 ++ p3.1 ++ p4.1), p4.2)
    else none

/-- Character class `[A-Z]`. -/
def isUpperAZ (c : Char) : Bool := 'A' ≤ c && c ≤ 'Z'

/-- Character class `[a-z]`. -/
def isLowerAZ (c : Char) : Bool := 'a' ≤ c && c ≤ 'z'

/-- One capitalized word `[A-Z][a-z]+` (greedy). -/
def takeCapWord : List Char → Option (List Char × List Char)
  | [] => none
  | c :: rest =>
    if isUpperAZ c then
      let p := List.span isLowerAZ rest
      if p.1 = [] then none else some (c :: p.1, p.2)
    else none

/-- Greedy star `(?:\s+[A-Z][a-z]+)*`: each iteration needs at least one
whitespace character and a capitalized word, so it consumes at least two
characters; `fuel` (instantiated with the input length) bounds recursion. -/
def takeMoreCapWords : Nat → List Char → List Char × List Char
  | 0, l => ([], l)
  | Nat.succ n, l =>
    let p := List.span isWs l
    if p.1 = [] then ([], l)
    else
      match takeCapWord p.2 with
      | none => ([], l)
      | some w =>
        let more := takeMoreCapWords n w.2
        (p.1 ++ w.1 ++ more.1, more.2)

/-- One match attempt of `lit ++ [A-Z][a-z]+(?:\s+[A-Z][a-z]+)*` — the shape
of the `Department of X` and `Office of X` agency patterns (lines 356, 358),
compiled without `re.IGNORECASE`. -/
def matchPhrasePat (lit : List Char) (l : List Char) : Option (List Char × List Char) :=
  match csTake lit l with
  | none => none
  | some m0 =>
    match takeCapWord m0.2 with
    | none => none
    | some w =>
      let more := takeMoreCapWords w.2.length w.2
      some (m0.1 ++ w.1 ++ more.1, more.2)

/-- Literal of the `Department of X` pattern. -/
def deptLit : List Char := "Department of ".toList

/-- Literal of the `Office of X` pattern. -/
def officeLit : List Char := "Office of ".toList

/-- Alternatives of `r'DOD|Pentagon|CIA|FBI|NSA|DHS|ICE|CBP'` (line 357),
in source order, case-sensitive. -/
def abbrevWords : List (List Char) :=
  ["DOD".toList, "Pentagon".toList, "CIA".toList, "FBI".toList,
   "NSA".toList, "DHS".toList, "ICE".toList, "CBP".toList]

/-- One match attempt of the agency-abbreviation alternation. -/
def matchAbbrev (l : List Char) : Option (List Char × List Char) :=
  altTakeCS abbrevWords l

/-- The `re.findall` scan: non-overlapping leftmost matches, resuming after each
match and advancing one character on failure. Every matcher above consumes
at least one character on success, so fuel equal to the input length is
never exhausted before the scan finishes. -/
def findAllAux (m : List Char → Option (List Char × List Char)) :
    Nat → List Char → List String
  | 0, _ => []
  | _, [] => []
  | Nat.succ n, c :: cs =>
    match m (c :: cs) with
    | some r => String.mk r.1 :: findAllAux m n r.2
    | none => findAllAux m n cs

/-- Model of `re.findall(pattern, text)` for the matchers of this file. -/
def findAll (m : List Char → Option (List Char × List Char)) (s : String) :
    List String :=
  findAllAux m s.toList.length s.toList

/-- The corporate-suffix indicator list of line 367. -/
def companyIndicators : List String :=
  ["Inc", "Corp", "LLC", "Ltd", "Technologies", "Systems", "GmbH"]

/-- The company heuristic of lines 368-376: for every word of `text.split()`
containing an indicator substring, join it with up to two preceding words;
keep candidates longer than 5 characters. `max(0, i-2)` is truncated `Nat`
subtraction. -/
def companyCandidates (text : String) : List String :=
  let words := pySplitWs text
  (List.range words.length).filterMap (fun i =>
    match words[i]? with
    | none => none
    | some w =>
      if companyIndicators.any (fun ind => pyIn ind w) then
        let start := i - 2
        let company := String.intercalate " " ((words.drop start).take (i + 1 - start))
        if company.length > 5 then some company else none
      else none)

/-- Model of Python `list(set(xs))` (lines 379-380). CPython's set iteration
order is unspecified, so this model fixes first-occurrence order; every
concrete input evaluated below yields at most one distinct element per
category, where all iteration orders agree. -/
def pySetList (xs : List String) : List String := xs.eraseDups

/-- The entity record built by `extract_entities`. -/
structure Entities where
  companies : List String := []
  agencies : List String := []
  amounts : List String := []
  people : List String := []
deriving Repr, DecidableEq

/-- Model of `PalantirIntelligenceProcessor.extract_entities(text)`: amounts are
truncated to 5 before deduplication (line 352); agencies concatenate the
three pattern scans in source order; every category is finally deduplicated
and truncated to 5 (lines 379-380); `people` stays empty. -/
def extract_entities (text : String) : Entities :=
  let amountsRaw := (findAll matchAmount text).take 5
  let agenciesRaw :=
    findAll (matchPhrasePat deptLit) text
      ++ findAll matchAbbrev text
      ++ findAll (matchPhrasePat officeLit) text
  let companiesRaw := companyCandidates text
  { companies := (pySetList companiesRaw).take 5
    agencies := (pySetList agenciesRaw).take 5
    amounts := (pySetList amountsRaw).take 5
    people := (pySetList []).take 5 }

/-! ## Ledger Store — `processed_items`, persisted by pickle -/

/-- The processing ledger: the Python dict `self.processed_items` mapping an
entry permalink to the ISO timestamp of first processing. Modelled as an
insertion-ordered association list, matching dict semantics. -/
abbrev Ledger := List (String × String)

/-- Python `key in dict`. -/
def ledgerMem (l : Ledger) (k : String) : Bool :=
  l.any (fun p => p.1 = k)

/-- Python `dict[key] = value`: update in place when present, append
otherwise. -/
def ledgerInsert (l : Ledger) (k v : String) : Ledger :=
  if ledgerMem l k then
    l.map (fun p => if p.1 = k then (k, v) else p)
  else l ++ [(k, v)]

/-! ## Feed Ingestion Orchestrator — `process_rss_feeds`, makeitmakesense.py lines 384-463 -/

/-- A catalog feed as built by `parse_opml`: `{"title": ..., "url": ...,
"type": "rss"}`. -/
structure Feed where
  title : String
  url : String
  ftype : String := "rss"
deriving Repr, DecidableEq

/-- The IntelligenceItem dict appended at lines 441-452. -/
structure Item where
  id : String
  title : String
  content : String
  summary : String
  url : String
  date : String
  source : String
  source_type : String
  keywords : List String
  entities : Entities
deriving Repr, DecidableEq

/-- Run environment of the Orchestrator: the configuration plus the external
collaborators (`dateutil` parsing, BeautifulSoup stripping, `feedparser`
fetching) and the current time, fixed for a run. -/
structure Env where
  keywords : List String
  daysBack : Int
  nowUtc : Int
  nowIso : String
  parseDate : String → Option ParsedDate
  soup : String → Option String
  fetch : String → List Entry

/-- Terminal state of one examined entry, tagging which check fired, in the
order the source evaluates them. -/
inductive EntryStatus where
  | skippedDup
  | skippedStale
  | rejected
  | accepted
deriving Repr, DecidableEq

/-- The per-entry body of the loop at lines 416-455, evaluated in source
order: (1) missing URL or URL already ledgered ⇒ skip; (2) not recent ⇒
skip; (3) no keyword match ⇒ reject; (4) otherwise build the item and
insert the URL into the ledger valued by the current ISO timestamp. -/
def processEntry (env : Env) (feedTitle : String) (ledger : Ledger) (e : Entry) :
    Ledger × Option Item × EntryStatus :=
  let url := e.link.getD ""
  if url = "" || ledgerMem ledger url then (ledger, none, .skippedDup)
  else if !is_recent env.parseDate env.nowUtc env.daysBack e then
    (ledger, none, .skippedStale)
  else
    let title := e.title.getD ""
    let content := extract_content env.soup e
    let km := contains_keywords env.keywords (title ++ " " ++ content)
    if km.1 then
      let item : Item :=
        { id := url
          title := title
          content := content
          summary := generate_summary content title km.2
          url := url
          date := e.published.getD ""
          source := feedTitle
          source_type := "rss"
          keywords := km.2
          entities := extract_entities (title ++ " " ++ content) }
      (ledgerInsert ledger url env.nowIso, some item, .accepted)
    else (ledger, none, .rejected)

/-- The entry loop of one feed, threading the ledger and collecting accepted
items in source order. -/
def processEntries (env : Env) (feedTitle : String) :
    Ledger → List Entry → Ledger × List Item
  | l, [] => (l, [])
  | l, e :: es =>
    let r := processEntry env feedTitle l e
    let rest := processEntries env feedTitle r.1 es
    (rest.1,
      match r.2.1 with
      | some it => it :: rest.2
      | none => rest.2)

/-- One feed's processing: only the first 50 fetched entries are examined
(`parsed_feed.entries[:50]`, line 415). -/
def processFeedEntries (env : Env) (feedTitle : String) (l : Ledger)
    (entries : List Entry) : Ledger × List Item :=
  processEntries env feedTitle l (entries.take 50)

/-- Per-feed dispatch of the loop at lines 404-461: non-RSS catalog records
are skipped; otherwise the fetched entries are processed. -/
def processFeed (env : Env) (l : Ledger) (f : Feed) : Ledger × List Item :=
  if f.ftype ≠ "rss" then (l, [])
  else processFeedEntries env f.title l (env.fetch f.url)

/-- Model of `PalantirIntelligenceProcessor.process_rss_feeds`: fold over the feed
catalog, threading the ledger and appending each feed's items. -/
def process_rss_feeds (env : Env) (l : Ledger) : List Feed → Ledger × List Item
  | [] => (l, [])
  | f :: fs =>
    let r := processFeed env l f
    let rest := process_rss_feeds env r.1 fs
    (rest.1, r.2 ++ rest.2)

/-! ## Downstream export — `export_to_json.py` lines 28-56 -/

/-- A value of the unpickled `processed_items` dict as `export_to_json`
distinguishes them: a plain (timestamp) string or an article record. -/
inductive PickleVal where
  | pstr (s : String)
  | pdict (d : Item)
deriving Repr, DecidableEq

/-- The item-selection loop of `export_to_json` (lines 37-48): keep the dict
values, skip every non-dict value with a warning. -/
def export_items (m : List (String × PickleVal)) : List Item :=
  m.filterMap (fun p =>
    match p.2 with
    | .pdict d => some d
    | .pstr _ => none)

/-- The pickle written by `save_history`: exactly the ledger, whose values
are ISO timestamp strings. -/
def ledgerPickle (l : Ledger) : List (String × PickleVal) :=
  l.map (fun p => (p.1, .pstr p.2))

/-! ## Feed Catalog Loader — `parse_opml`, makeitmakesense.py lines 183-225 -/

/-- XML element tree produced by the external `xml.etree.ElementTree`
collaborator. -/
inductive Xml where
  | elem (tag : String) (attrs : List (String × String)) (children : List Xml)

mutual
/-- All proper descendants of an element, in document (pre-)order, as
`.//`-style XPath selection enumerates them. -/
def xmlDescendants : Xml → List Xml
  | .elem _ _ ch => xmlDescList ch

/-- Descendant enumeration of a child list. -/
def xmlDescList : List Xml → List Xml
  | [] => []
  | x :: xs => x :: xmlDescendants x ++ xmlDescList xs
end

/-- Model of `Element.get(key)`. -/
def xmlGet (x : Xml) (k : String) : Option String :=
  match x with
  | .elem _ attrs _ => (attrs.find? (fun p => p.1 = k)).map (fun p => p.2)

/-- Model of `Element.tag`. -/
def xmlTag : Xml → String
  | .elem t _ _ => t

/-- The extraction loop at lines 212-221: every descendant `outline` element
carrying an `xmlUrl` attribute yields a feed record, with the `title`
attribute defaulted to `"Unnamed Feed"`; an empty `xmlUrl` value is falsy
and skipped by `if feed_url:`. -/
def opml_feeds (root : Xml) : List Feed :=
  (xmlDescendants root).filterMap (fun x =>
    if xmlTag x = "outline" then
      match xmlGet x "xmlUrl" with
      | some u =>
        if u ≠ "" then
          some { title := (xmlGet x "title").getD "Unnamed Feed", url := u, ftype := "rss" }
        else none
      | none => none
    else none)

/-- The five entity names of the negative lookahead
`&(?!amp;|lt;|gt;|apos;|quot;)`. -/
def entityNames : List (List Char) :=
  ["amp;".toList, "lt;".toList, "gt;".toList, "apos;".toList, "quot;".toList]

/-- Whether the text after an ampersand starts with a known entity name. -/
def startsWithEntity (l : List Char) : Bool :=
  entityNames.any (fun w => hasPre w l)

/-- The ampersand-repair pre-pass of line 208:
`re.sub(r'&(?!amp;|lt;|gt;|apos;|quot;)', '&amp;', content)`. An ampersand
whose lookahead fails is replaced by `&amp;` (the replacement text is not
rescanned); every other character is copied. -/
def fixAmpChars : List Char → List Char
  | [] => []
  | c :: rest =>
    if c = '&' then
      if startsWithEntity rest then '&' :: fixAmpChars rest
      else '&' :: 'a' :: 'm' :: 'p' :: ';' :: fixAmpChars rest
    else c :: fixAmpChars rest

/-- String-level ampersand repair. -/
def fixAmp (s : String) : String := String.mk (fixAmpChars s.toList)

/-- Model of `PalantirIntelligenceProcessor.parse_opml`. `fileContent` is `none` when
`self.opml_file` is unset or the file is missing (lines 198-200); `et`
models `xml.etree.ElementTree.fromstring`, with `none` as its raised parse
error, caught at line 224. Both failures yield an empty feed list after a
printed report; the function never raises. -/
def parse_opml (fileContent : Option String) (et : String → Option Xml) :
    List Feed :=
  match fileContent with
  | none => []
  | some content =>
    match et (fixAmp content) with
    | none => []
    | some root => opml_feeds root

/-! ## Program entry point — `main`, makeitmakesense.py lines 844-925 -/

/-- The parsed command-line arguments (lines 872-877). -/
structure Args where
  keywords : String := "keywords.txt"
  feeds : String := "Reader_Feeds.opml"
  output_dir : String := "output"
  days_back : Int := 3
  gov : Bool := false
  reset : Bool := false
deriving Repr, DecidableEq

/-- The configuration `main` actually assembles before processing. -/
structure MainConfig where
  keywords : List String
  opml_file : String
  output_dir : String
  days_back : Int
deriving Repr, DecidableEq

/-- The keyword load of lines 882-884: `open('keywords.txt')` — the literal
path, not `args.keywords` — keeping the stripped non-blank lines. `fs`
models the file system; `none` (missing file) makes `open` raise, so the
result is `none`. -/
def mainKeywords (fs : String → Option String) : Option (List String) :=
  (fs "keywords.txt").map (fun content =>
    ((content.toList.splitOn '\n').map (fun l => pyStrip (String.mk l))).filter
      (fun s => s ≠ ""))

/-- The processor configuration built at lines 886-892: keywords from the
literal `keywords.txt`, the catalog from the literal `'Reader_Feeds.opml'`,
and only `output_dir`/`days_back` taken from the arguments. -/
def mainConfig (args : Args) (fs : String → Option String) : Option MainConfig :=
  (mainKeywords fs).map (fun kws =>
    { keywords := kws
      opml_file := "Reader_Feeds.opml"
      output_dir := args.output_dir
      days_back := args.days_back })

/-! ## Helper lemmas -/

/-- A filtered list is non-empty exactly when some element passes the test. -/
theorem filter_length_pos_eq_any {α : Type} (p : α → Bool) (l : List α) :
    decide ((l.filter p).length > 0) = l.any p := by
  induction l with
  | nil => rfl
  | cons a l ih =>
    by_cases h : p a = true
    · simp [List.filter_cons, h]
    · simp only [Bool.not_eq_true] at h
      simp [List.filter_cons, h, ih]

/-! ## C6 — Keyword Matcher contract -/

/-- C6: for every haystack and keyword list, `contains_keywords` returns
`matched = true` exactly when the list is empty or some keyword's lowercase
form occurs in the lowercase haystack; the matched list is the keywords
that occur, in configured order (empty when the list is empty); on the
haystack "Data Protection Authority fines Acme Corp $5M" with keywords
["data protection", "fine"] it returns `(true, ["data protection", "fine"])`. -/
theorem contains_keywords_spec :
    (∀ (keywords : List String) (text : String),
      (contains_keywords keywords text).1
          = (keywords.isEmpty || keywords.any (fun kw => pyIn (pyLower kw) (pyLower text)))
        ∧ (contains_keywords keywords text).2
          = keywords.filter (fun kw => pyIn (pyLower kw) (pyLower text)))
    ∧ contains_keywords ["data protection", "fine"]
          "Data Protection Authority fines Acme Corp $5M"
        = (true, ["data protection", "fine"])
    ∧ (∀ text : String, contains_keywords [] text = (true, [])) := by
  refine ⟨?_, by decide, fun text => rfl⟩
  intro keywords text
  by_cases h : keywords = []
  · subst h; simp [contains_keywords]
  · have hne : keywords.isEmpty = false := by simp [List.isEmpty_iff, h]
    simp only [contains_keywords, h, if_false, hne, Bool.false_or]
    exact ⟨filter_length_pos_eq_any _ _, trivial⟩

/-! ## C5 — Recency Filter contract -/

/-- C5: an entry whose selected timestamp is absent, or fails to parse, is
treated as recent; a parsed timestamp (naive ones assumed UTC inside
`utcVal`) passes the filter exactly when it is at least
`now - lookback_days`, making the lower bound inclusive. -/
theorem is_recent_spec :
    ∀ (parseDate : String → Option ParsedDate) (nowUtc daysBack : Int) (e : Entry),
      (entryDateStr e = none → is_recent parseDate nowUtc daysBack e = true)
      ∧ (∀ s, entryDateStr e = some s → parseDate s = none →
          is_recent parseDate nowUtc daysBack e = true)
      ∧ (∀ s d, entryDateStr e = some s → parseDate s = some d →
          (is_recent parseDate nowUtc daysBack e = true ↔
            utcVal d ≥ nowUtc - daysBack * microsPerDay)) := by
  intro parseDate nowUtc daysBack e
  refine ⟨fun h => by simp [is_recent, h], fun s h hp => by simp [is_recent, h, hp],
    fun s d h hp => by simp [is_recent, h, hp]⟩

/-- Witness for C5 at concrete inputs: a timestamp parsing to the exact
cutoff `now - lookback_days` is included, one microsecond older is
excluded, and a missing timestamp is included. -/
theorem is_recent_spec_witness :
    is_recent (fun _ => some ⟨-259200000000, some 0⟩) 0 3 { published := some "x" } = true
    ∧ is_recent (fun _ => some ⟨-259200000001, some 0⟩) 0 3 { published := some "x" } = false
    ∧ is_recent (fun _ => none) 0 3 {} = true := by
  refine ⟨?_, ?_, ?_⟩
  · exact ((is_recent_spec (fun _ => some ⟨-259200000000, some 0⟩) 0 3
      { published := some "x" }).2.2 "x" ⟨-259200000000, some 0⟩ rfl rfl).mpr (by decide)
  · have h := ((is_recent_spec (fun _ => some ⟨-259200000001, some 0⟩) 0 3
      { published := some "x" }).2.2 "x" ⟨-259200000001, some 0⟩ rfl rfl)
    by_contra hc
    simp only [Bool.not_eq_false] at hc
    exact absurd (h.mp hc) (by decide)
  · exact (is_recent_spec (fun _ => none) 0 3 {}).1 rfl

/-! ## C4 — Entity extraction on the spec's test vector (corrected) -/

/-- C4 counterexample: on the spec's test text the amount regex captures
only "$1" — the pattern `[\$€£¥][\d,]+(?:\.\d{2})?...` requires exactly two
digits after the decimal point, so ".5 million" is left out of the match —
refuting `amounts = ["$1.5 million"]`. -/
theorem extract_entities_acme_counterexample :
    (extract_entities
        "Acme Technologies was fined $1.5 million by the Department of Justice").amounts
      ≠ ["$1.5 million"] := by decide

/-- C4 amended: the test text yields `amounts = ["$1"]` (not
"$1.5 million"), `agencies = ["Department of Justice"]`, and a companies
list containing "Acme Technologies". -/
theorem extract_entities_acme_amended :
    (extract_entities
        "Acme Technologies was fined $1.5 million by the Department of Justice").amounts
      = ["$1"]
    ∧ (extract_entities
        "Acme Technologies was fined $1.5 million by the Department of Justice").agencies
      = ["Department of Justice"]
    ∧ "Acme Technologies"
      ∈ (extract_entities
          "Acme Technologies was fined $1.5 million by the Department of Justice").companies := by
  refine ⟨by decide, by decide, by decide⟩

/-! ## C7 — Summary policy (corrected) -/

/-- Fallback summary as claim C7 words it, for comparison with the code:
"exactly the first two non-empty sentences of the body", joined like the
main clause. The code instead slices the first two split fields before
dropping empty ones. -/
def summary_fallback_claimed (content : String) : String :=
  String.intercalate ". "
    ((((splitSentences content).map pyStrip).filter (· ≠ "")).take 2) ++ "."

/-- C7 counterexample: the body "! Data privacy. Second thing." has no
sentence longer than 30 characters containing a keyword, its first split
field is empty (the leading "!"), and the code's fallback keeps only
"Data privacy" — the first two *fields*, not the first two non-empty
sentences — while the claim demands "Data privacy. Second thing.". -/
theorem generate_summary_fallback_counterexample :
    generate_summary "! Data privacy. Second thing." "t" [] = "Data privacy."
    ∧ summary_fallback_claimed "! Data privacy. Second thing."
        = "Data privacy. Second thing."
    ∧ generate_summary "! Data privacy. Second thing." "t" []
        ≠ summary_fallback_claimed "! Data privacy. Second thing." := by
  refine ⟨by decide, by decide, by decide⟩

/-- C7 amended: the summary is the stripped sentences of length > 30
containing a matched keyword case-insensitively, capped at 6, joined with
". " and a final "."; when no sentence qualifies it falls back to the
non-empty ones among the **first two split fields** (possibly fewer than
two non-empty sentences); a trailing line naming the matched keywords is
appended whenever any exist. -/
theorem generate_summary_amended :
    ∀ (content title : String) (keywords : List String),
      (((splitSentences content).map pyStrip).filter (sentenceQualifies keywords) ≠ [] →
        generate_summary content title keywords
          = String.intercalate ". "
              ((((splitSentences content).map pyStrip).filter
                  (sentenceQualifies keywords)).take 6) ++ "."
            ++ (if keywords ≠ [] then
                  "\n\n🎯 Relevant keywords found: " ++ String.intercalate ", " keywords
                else ""))
      ∧ (((splitSentences content).map pyStrip).filter (sentenceQualifies keywords) = [] →
        generate_summary content title keywords
          = String.intercalate ". "
              ((((splitSentences content).take 2).map pyStrip).filter (· ≠ "")) ++ "."
            ++ (if keywords ≠ [] then
                  "\n\n🎯 Relevant keywords found: " ++ String.intercalate ", " keywords
                else "")) := by
  intro content title keywords
  constructor
  · intro h
    have htake : (((splitSentences content).map pyStrip).filter
        (sentenceQualifies keywords)).take 6 ≠ [] := by
      intro hc
      exact h (List.take_eq_nil_iff.mp hc |>.resolve_left (by decide))
    by_cases hk : keywords = []
    · subst hk
      simp [generate_summary, htake, String.append_empty]
    · simp [generate_summary, htake, hk, String.append_assoc]
      congr 1
  · intro h
    by_cases hk : keywords = []
    · subst hk
      simp [generate_summary, h, String.append_empty]
    · simp [generate_summary, h, hk, String.append_assoc]
      congr 1

/-- Witness for C7's amended theorem: a body with one long keyword-bearing
sentence takes the keyword branch, and the counterexample body with no
keywords takes the fallback branch. -/
theorem generate_summary_amended_witness :
    generate_summary "This long sentence discusses data protection at length." "t" ["data"]
      = "This long sentence discusses data protection at length."
        ++ "\n\n🎯 Relevant keywords found: data"
    ∧ generate_summary "! Data privacy. Second thing." "t" [] = "Data privacy." := by
  constructor
  · have h := (generate_summary_amended
      "This long sentence discusses data protection at length." "t" ["data"]).1
      (by decide)
    rw [h]; decide
  · have h := (generate_summary_amended "! Data privacy. Second thing." "t" []).2
      (by decide)
    rw [h]; decide

/-! ## C8 — Bounded work per feed -/

/-- At most one item is collected per examined entry. -/
theorem processEntries_items_le {env : Env} {t : String} :
    ∀ (es : List Entry) (l : Ledger),
      (processEntries env t l es).2.length ≤ es.length := by
  intro es
  induction es with
  | nil => intro l; simp [processEntries]
  | cons e es ih =>
    intro l
    simp only [processEntries, List.length_cons]
    cases (processEntry env t l e).2.1 with
    | none => exact Nat.le_succ_of_le (ih _)
    | some it =>
      simp only [List.length_cons]
      exact Nat.succ_le_succ (ih _)

/-- C8: one feed's processing examines only the first 50 fetched entries —
the result is unchanged by any modification beyond index 50, at most 50
items can come out of one feed, and a 500-entry feed has exactly 50
entries examined. -/
theorem processFeedEntries_bounded :
    ∀ (env : Env) (t : String) (l : Ledger) (entries entries2 : List Entry),
      (entries.take 50 = entries2.take 50 →
        processFeedEntries env t l entries = processFeedEntries env t l entries2)
      ∧ (processFeedEntries env t l entries).2.length ≤ 50
      ∧ (entries.length = 500 → (entries.take 50).length = 50) := by
  intro env t l entries entries2
  refine ⟨fun h => by simp [processFeedEntries, h], ?_, fun h => by simp [h]⟩
  calc (processFeedEntries env t l entries).2.length
      ≤ (entries.take 50).length := processEntries_items_le _ _
    _ ≤ 50 := by simp

/-- A minimal run environment used by concrete witnesses: one keyword, no
parsable dates, no markup stripping, an empty fetch. -/
def benv : Env :=
  { keywords := ["k"], daysBack := 0, nowUtc := 0, nowIso := "",
    parseDate := fun _ => none, soup := fun _ => none, fetch := fun _ => [] }

/-- Witness for C8: a 500-entry feed in a trivial environment examines
exactly 50 entries, and entries beyond index 50 do not change the result. -/
theorem processFeedEntries_bounded_witness :
    (processFeedEntries benv "f" [] (List.replicate 500 {})).2.length ≤ 50
    ∧ ((List.replicate 500 ({} : Entry)).take 50).length = 50
    ∧ processFeedEntries benv "f" [] (List.replicate 500 {})
      = processFeedEntries benv "f" [] (List.replicate 60 {}) := by
  refine ⟨(processFeedEntries_bounded benv "f" [] (List.replicate 500 {}) []).2.1,
    (processFeedEntries_bounded benv "f" [] (List.replicate 500 {}) []).2.2
      (by rw [List.length_replicate]),
    (processFeedEntries_bounded benv "f" [] (List.replicate 500 {})
      (List.replicate 60 {})).1 ?_⟩
  rw [List.take_replicate, List.take_replicate]
  norm_num

/-! ## C10 — The entry point ignores --keywords and --feeds -/

/-- C10: two argument records differing only in the `--keywords`/`--feeds`
values produce the same loaded configuration; the keyword list depends only
on the file at the literal path "keywords.txt", and the catalog path in the
configuration is always the literal "Reader_Feeds.opml". -/
theorem mainConfig_ignores_kf_args :
    ∀ (a1 a2 : Args) (fs fs2 : String → Option String),
      (a1.output_dir = a2.output_dir → a1.days_back = a2.days_back →
        a1.gov = a2.gov → a1.reset = a2.reset →
        mainConfig a1 fs = mainConfig a2 fs)
      ∧ (fs "keywords.txt" = fs2 "keywords.txt" →
          mainConfig a1 fs = mainConfig a1 fs2)
      ∧ (∀ c, mainConfig a1 fs = some c → c.opml_file = "Reader_Feeds.opml") := by
  intro a1 a2 fs fs2
  refine ⟨fun h1 h2 _ _ => by simp [mainConfig, h1, h2], ?_, ?_⟩
  · intro h
    simp [mainConfig, mainKeywords, h]
  · intro c hc
    cases hfs : fs "keywords.txt" with
    | none => simp [mainConfig, mainKeywords, hfs] at hc
    | some s =>
      simp only [mainConfig, mainKeywords, hfs, Option.map_some'] at hc
      cases hc
      rfl

/-- Witness for C10: two invocations differing in `--keywords` and
`--feeds` load identical configurations from the literal paths. -/
theorem mainConfig_ignores_kf_args_witness :
    mainConfig { keywords := "other.txt", feeds := "other.opml" }
        (fun p => if p = "keywords.txt" then some " privacy \n\nai\n" else none)
      = mainConfig {}
        (fun p => if p = "keywords.txt" then some " privacy \n\nai\n" else none)
    ∧ mainConfig { keywords := "other.txt", feeds := "other.opml" }
        (fun p => if p = "keywords.txt" then some " privacy \n\nai\n" else none)
      = some { keywords := ["privacy", "ai"], opml_file := "Reader_Feeds.opml",
               output_dir := "output", days_back := 3 } := by
  refine ⟨(mainConfig_ignores_kf_args { keywords := "other.txt", feeds := "other.opml" } {}
    (fun p => if p = "keywords.txt" then some " privacy \n\nai\n" else none)
    (fun p => if p = "keywords.txt" then some " privacy \n\nai\n" else none)).1
    rfl rfl rfl rfl, by decide⟩

/-! ## C3 — Ledger values versus the downstream export (code bug) -/

/-- A single-entry feed record used by concrete runs. -/
def wEntry : Entry := { link := some "http://e/1" }

/-- A run environment whose single feed returns one new entry; the empty
keyword list is the matcher's admit-all mode. -/
def wEnv : Env :=
  { keywords := [], daysBack := 3, nowUtc := 0, nowIso := "2026-10-12T00:00:00",
    parseDate := fun _ => none, soup := fun _ => none, fetch := fun _ => [wEntry] }

/-- The catalog feed of the concrete runs. -/
def wFeed : Feed := { title := "Example", url := "http://e/rss" }

/-- C3: the pipeline's ledger maps every identifier to a timestamp string
(`self.processed_items[entry_url] = datetime.now().isoformat()`), and
`export_to_json` keeps only dict values, skipping every string value — so
serializing the ledger the pipeline actually persists yields zero exported
items, never one item per ledgered identifier. The concrete run accepts one
entry, ledgers its identifier, and still exports an empty item list. -/
theorem export_of_pipeline_ledger_empty :
    (∀ l : Ledger, export_items (ledgerPickle l) = [])
    ∧ (process_rss_feeds wEnv [] [wFeed]).2.length = 1
    ∧ (process_rss_feeds wEnv [] [wFeed]).1 = [("http://e/1", "2026-10-12T00:00:00")]
    ∧ export_items (ledgerPickle (process_rss_feeds wEnv [] [wFeed]).1) = [] := by
  refine ⟨?_, by decide, by decide, by decide⟩
  intro l
  induction l with
  | nil => rfl
  | cons p ps ih =>
    simp only [ledgerPickle, List.map_cons, export_items, List.filterMap_cons] at *
    exact ih

/-! ## C9 — Feed Catalog Loader resilience -/

/-- Ampersand repair leaves an ampersand-free block untouched and continues
past it. -/
theorem fixAmpChars_append_no_amp (l r : List Char) (h : '&' ∉ l) :
    fixAmpChars (l ++ r) = l ++ fixAmpChars r := by
  induction l with
  | nil => rfl
  | cons c cs ih =>
    simp only [List.mem_cons, not_or] at h
    have hc : ¬ c = '&' := fun hcc => h.1 hcc.symm
    simp only [List.cons_append, fixAmpChars, List.append_eq, if_neg hc]
    rw [ih h.2]

/-- Ampersand repair is the identity on ampersand-free text. -/
theorem fixAmpChars_no_amp (l : List Char) (h : '&' ∉ l) : fixAmpChars l = l := by
  have h2 := fixAmpChars_append_no_amp l [] h
  simpa [fixAmpChars] using h2

/-- An ampersand whose lookahead finds an entity name is kept as-is. -/
theorem fixAmpChars_amp_ent (rest : List Char) (h : startsWithEntity rest = true) :
    fixAmpChars ('&' :: rest) = '&' :: fixAmpChars rest := by
  simp [fixAmpChars, h]

/-- An ampersand whose lookahead fails is replaced by the escape text. -/
theorem fixAmpChars_amp_noent (rest : List Char) (h : startsWithEntity rest = false) :
    fixAmpChars ('&' :: rest) = '&' :: 'a' :: 'm' :: 'p' :: ';' :: fixAmpChars rest := by
  simp [fixAmpChars, h]

/-- A list is an initial segment of itself extended. -/
theorem hasPre_append_self (l r : List Char) : hasPre l (l ++ r) = true := by
  induction l with
  | nil => rfl
  | cons c cs ih => simp [hasPre, ih]

/-- Text beginning with the escaped entity body passes the lookahead. -/
theorem startsWithEntity_amp (post : List Char) :
    startsWithEntity ("amp;".toList ++ post) = true := by
  unfold startsWithEntity entityNames
  simp only [List.any_cons, List.any_nil, Bool.or_eq_true]
  exact Or.inl (hasPre_append_self "amp;".toList post)

/-- C9: the Feed Catalog Loader is total — a missing file yields an empty
feed list, a document the XML collaborator still cannot parse after the
ampersand repair yields an empty feed list — and a document whose only
malformation is one unescaped `&` (ampersand-free context around it, with
no entity name following) is repaired to exactly the correctly-escaped
document, the correctly-escaped document is left unchanged, and both parse
to the same FeedSource list under any XML collaborator. -/
theorem parse_opml_resilient :
    (∀ et, parse_opml none et = [])
    ∧ (∀ (c : String) (et : String → Option Xml),
        et (fixAmp c) = none → parse_opml (some c) et = [])
    ∧ (∀ (pre post : List Char) (et : String → Option Xml),
        '&' ∉ pre → '&' ∉ post → startsWithEntity post = false →
        fixAmp (String.mk (pre ++ '&' :: post))
            = String.mk (pre ++ "&amp;".toList ++ post)
        ∧ fixAmp (String.mk (pre ++ "&amp;".toList ++ post))
            = String.mk (pre ++ "&amp;".toList ++ post)
        ∧ parse_opml (some (String.mk (pre ++ '&' :: post))) et
            = parse_opml (some (String.mk (pre ++ "&amp;".toList ++ post))) et) := by
  refine ⟨fun et => rfl, fun c et h => by simp [parse_opml, h], ?_⟩
  intro pre post et hpre hpost hent
  have hmal : fixAmp (String.mk (pre ++ '&' :: post))
      = String.mk (pre ++ "&amp;".toList ++ post) := by
    show String.mk (fixAmpChars (pre ++ '&' :: post)) = _
    rw [fixAmpChars_append_no_amp pre ('&' :: post) hpre,
      fixAmpChars_amp_noent post hent, fixAmpChars_no_amp post hpost,
      List.append_assoc]
    rfl
  have hesc : fixAmp (String.mk (pre ++ "&amp;".toList ++ post))
      = String.mk (pre ++ "&amp;".toList ++ post) := by
    show String.mk (fixAmpChars (pre ++ "&amp;".toList ++ post)) = _
    rw [List.append_assoc, fixAmpChars_append_no_amp pre ("&amp;".toList ++ post) hpre]
    rw [show ("&amp;".toList ++ post : List Char) = '&' :: ("amp;".toList ++ post) from rfl]
    rw [fixAmpChars_amp_ent ("amp;".toList ++ post) (startsWithEntity_amp post)]
    rw [fixAmpChars_append_no_amp "amp;".toList post (by decide),
      fixAmpChars_no_amp post hpost]
  refine ⟨hmal, hesc, ?_⟩
  simp only [parse_opml, hmal, hesc]

/-- A concrete XML collaborator recognizing one escaped catalog document. -/
def wEt : String → Option Xml := fun s =>
  if s = "<o><outline title=\"A\" xmlUrl=\"u?a=1&amp;b=2\"/></o>" then
    some (.elem "o" [] [.elem "outline" [("title", "A"), ("xmlUrl", "u?a=1&b=2")] []])
  else none

/-- Witness for C9: a catalog document with one raw `&` inside an attribute
value parses to the same (non-empty) FeedSource list as its escaped form. -/
theorem parse_opml_resilient_witness :
    parse_opml
        (some (String.mk ("<o><outline title=\"A\" xmlUrl=\"u?a=1".toList
          ++ '&' :: "b=2\"/></o>".toList))) wEt
      = parse_opml
        (some (String.mk ("<o><outline title=\"A\" xmlUrl=\"u?a=1".toList
          ++ "&amp;".toList ++ "b=2\"/></o>".toList))) wEt
    ∧ parse_opml
        (some (String.mk ("<o><outline title=\"A\" xmlUrl=\"u?a=1".toList
          ++ "&amp;".toList ++ "b=2\"/></o>".toList))) wEt
      = [{ title := "A", url := "u?a=1&b=2", ftype := "rss" }] :=
  ⟨(parse_opml_resilient.2.2 "<o><outline title=\"A\" xmlUrl=\"u?a=1".toList
      "b=2\"/></o>".toList wEt (by decide) (by decide) (by decide)).2.2,
   by decide⟩

/-! ## Ledger lemmas -/

/-- An in-place dict update never changes which keys are present. -/
theorem ledgerMem_map_update (l : Ledger) (k v k' : String) :
    ledgerMem (l.map (fun p => if p.1 = k then (k, v) else p)) k' = ledgerMem l k' := by
  induction l with
  | nil => rfl
  | cons p ps ih =>
    by_cases hp : p.1 = k
    · simp [ledgerMem, hp] at ih ⊢
      rw [ih]
    · simp [ledgerMem, hp] at ih ⊢
      rw [ih]

/-- The inserted key is present afterwards. -/
theorem ledgerMem_insert_self (l : Ledger) (k v : String) :
    ledgerMem (ledgerInsert l k v) k = true := by
  unfold ledgerInsert
  by_cases h : ledgerMem l k = true
  · rw [if_pos h, ledgerMem_map_update]
    exact h
  · rw [if_neg (by simp [h])]
    simp [ledgerMem, List.any_append]

/-- Insertion preserves the presence of every key. -/
theorem ledgerMem_insert_mono (l : Ledger) (k v k' : String)
    (h : ledgerMem l k' = true) : ledgerMem (ledgerInsert l k v) k' = true := by
  unfold ledgerInsert
  by_cases hm : ledgerMem l k = true
  · rw [if_pos hm, ledgerMem_map_update]
    exact h
  · rw [if_neg (by simp [hm])]
    simp only [ledgerMem, List.any_append, Bool.or_eq_true]
    exact Or.inl h

/-! ## Per-entry case analysis -/

/-- Exhaustive case split of one entry's processing: it is skipped as a
duplicate, skipped as stale, rejected, or accepted with the identifier
inserted into the ledger — recording in each case the condition that fired. -/
theorem processEntry_cases (env : Env) (t : String) (l : Ledger) (e : Entry) :
    (processEntry env t l e = (l, none, .skippedDup)
      ∧ (e.link.getD "" = "" ∨ ledgerMem l (e.link.getD "") = true))
    ∨ (processEntry env t l e = (l, none, .skippedStale)
      ∧ is_recent env.parseDate env.nowUtc env.daysBack e = false)
    ∨ (processEntry env t l e = (l, none, .rejected)
      ∧ (contains_keywords env.keywords
          ((e.title.getD "") ++ " " ++ extract_content env.soup e)).1 = false)
    ∨ (e.link.getD "" ≠ "" ∧ ledgerMem l (e.link.getD "") = false
      ∧ is_recent env.parseDate env.nowUtc env.daysBack e = true
      ∧ (contains_keywords env.keywords
          ((e.title.getD "") ++ " " ++ extract_content env.soup e)).1 = true
      ∧ (processEntry env t l e).1 = ledgerInsert l (e.link.getD "") env.nowIso
      ∧ (processEntry env t l e).2.1.map (fun it => it.id) = some (e.link.getD "")
      ∧ (processEntry env t l e).2.2 = .accepted) := by
  by_cases h1 : e.link.getD "" = ""
  · exact Or.inl ⟨by simp [processEntry, h1], Or.inl h1⟩
  · by_cases h2 : ledgerMem l (e.link.getD "") = true
    · exact Or.inl ⟨by simp [processEntry, h2], Or.inr h2⟩
    · rw [Bool.not_eq_true] at h2
      by_cases h3 : is_recent env.parseDate env.nowUtc env.daysBack e = true
      · by_cases h4 : (contains_keywords env.keywords
            ((e.title.getD "") ++ " " ++ extract_content env.soup e)).1 = true
        · refine Or.inr (Or.inr (Or.inr ⟨h1, h2, h3, h4, ?_, ?_, ?_⟩)) <;>
            simp [processEntry, h1, h2, h3, h4]
        · rw [Bool.not_eq_true] at h4
          exact Or.inr (Or.inr (Or.inl ⟨by simp [processEntry, h1, h2, h3, h4], h4⟩))
      · rw [Bool.not_eq_true] at h3
        exact Or.inr (Or.inl ⟨by simp [processEntry, h1, h2, h3], h3⟩)

/-- Conditions under which one entry can no longer be accepted: no
identifier, identifier ledgered, stale, or no keyword match. -/
def entryNotAcceptable (env : Env) (l : Ledger) (e : Entry) : Prop :=
  e.link.getD "" = ""
  ∨ ledgerMem l (e.link.getD "") = true
  ∨ is_recent env.parseDate env.nowUtc env.daysBack e = false
  ∨ (contains_keywords env.keywords
      ((e.title.getD "") ++ " " ++ extract_content env.soup e)).1 = false

/-- An entry that cannot be accepted leaves the ledger alone and produces
no item. -/
theorem processEntry_stay (env : Env) (t : String) (l : Ledger) (e : Entry)
    (h : entryNotAcceptable env l e) :
    (processEntry env t l e).1 = l ∧ (processEntry env t l e).2.1 = none := by
  rcases processEntry_cases env t l e with ⟨heq, _⟩ | ⟨heq, _⟩ | ⟨heq, _⟩ |
    ⟨h1, h2, h3, h4, _, _, _⟩
  · rw [heq]; exact ⟨rfl, rfl⟩
  · rw [heq]; exact ⟨rfl, rfl⟩
  · rw [heq]; exact ⟨rfl, rfl⟩
  · rcases h with h | h | h | h
    · exact absurd h h1
    · exact absurd h (by simp [h2])
    · exact absurd h (by simp [h3])
    · exact absurd h (by simp [h4])

/-- After an entry is processed, it can no longer be accepted against the
resulting ledger. -/
theorem processEntry_post (env : Env) (t : String) (l : Ledger) (e : Entry) :
    entryNotAcceptable env (processEntry env t l e).1 e := by
  rcases processEntry_cases env t l e with ⟨heq, hc⟩ | ⟨heq, hc⟩ | ⟨heq, hc⟩ |
    ⟨_, _, _, _, h5, _, _⟩
  · rw [heq]
    rcases hc with hc | hc
    · exact Or.inl hc
    · exact Or.inr (Or.inl hc)
  · rw [heq]; exact Or.inr (Or.inr (Or.inl hc))
  · rw [heq]; exact Or.inr (Or.inr (Or.inr hc))
  · rw [h5]
    exact Or.inr (Or.inl (ledgerMem_insert_self l (e.link.getD "") env.nowIso))

/-- Processing one entry preserves every ledgered key. -/
theorem processEntry_mem_mono (env : Env) (t : String) (l : Ledger) (e : Entry)
    (k : String) (h : ledgerMem l k = true) :
    ledgerMem (processEntry env t l e).1 k = true := by
  rcases processEntry_cases env t l e with ⟨heq, _⟩ | ⟨heq, _⟩ | ⟨heq, _⟩ |
    ⟨_, _, _, _, h5, _, _⟩
  · rw [heq]; exact h
  · rw [heq]; exact h
  · rw [heq]; exact h
  · rw [h5]; exact ledgerMem_insert_mono l (e.link.getD "") env.nowIso k h

/-- Unfolding of the Recency Filter at an absent timestamp. -/
theorem is_recent_of_none (p : String → Option ParsedDate) (now daysBack : Int)
    (e : Entry) (h : entryDateStr e = none) : is_recent p now daysBack e = true := by
  simp only [is_recent, h]

/-- Unfolding of the Recency Filter at an unparsable timestamp. -/
theorem is_recent_of_parse_none (p : String → Option ParsedDate) (now daysBack : Int)
    (e : Entry) (s : String) (h : entryDateStr e = some s) (hp : p s = none) :
    is_recent p now daysBack e = true := by
  simp only [is_recent, h, hp]

/-- Unfolding of the Recency Filter at a parsed timestamp. -/
theorem is_recent_of_parse_some (p : String → Option ParsedDate) (now daysBack : Int)
    (e : Entry) (s : String) (d : ParsedDate) (h : entryDateStr e = some s)
    (hp : p s = some d) :
    is_recent p now daysBack e = decide (utcVal d ≥ now - daysBack * microsPerDay) := by
  simp only [is_recent, h, hp]

/-- An entry stale at some reference time stays stale at any later time. -/
theorem is_recent_false_mono (p : String → Option ParsedDate) (now now2 daysBack : Int)
    (e : Entry) (hle : now ≤ now2) (h : is_recent p now daysBack e = false) :
    is_recent p now2 daysBack e = false := by
  cases hd : entryDateStr e with
  | none => rw [is_recent_of_none p now daysBack e hd] at h; cases h
  | some s =>
    cases hp : p s with
    | none => rw [is_recent_of_parse_none p now daysBack e s hd hp] at h; cases h
    | some d =>
      rw [is_recent_of_parse_some p now daysBack e s d hd hp] at h
      rw [is_recent_of_parse_some p now2 daysBack e s d hd hp]
      simp only [decide_eq_false_iff_not, not_le] at h ⊢
      exact lt_of_lt_of_le h (sub_le_sub_right hle _)

/-- Not-acceptable is preserved by growing the ledger and by rerunning at a
later time with the same keywords, date parser, lookback and normalizer. -/
theorem entryNotAcceptable_mono (env env2 : Env) (l l2 : Ledger) (e : Entry)
    (hk : env2.keywords = env.keywords) (hd : env2.daysBack = env.daysBack)
    (hn : env.nowUtc ≤ env2.nowUtc) (hp : env2.parseDate = env.parseDate)
    (hs : env2.soup = env.soup)
    (hmem : ∀ k, ledgerMem l k = true → ledgerMem l2 k = true)
    (h : entryNotAcceptable env l e) : entryNotAcceptable env2 l2 e := by
  rcases h with h | h | h | h
  · exact Or.inl h
  · exact Or.inr (Or.inl (hmem _ h))
  · refine Or.inr (Or.inr (Or.inl ?_))
    rw [hp, hd]
    exact is_recent_false_mono env.parseDate env.nowUtc env2.nowUtc env.daysBack e hn h
  · refine Or.inr (Or.inr (Or.inr ?_))
    rw [hk, hs]
    exact h

/-! ## Run-level lemmas -/

/-- An entry loop preserves every ledgered key. -/
theorem processEntries_mem_mono (env : Env) (t : String) :
    ∀ (es : List Entry) (l : Ledger) (k : String),
      ledgerMem l k = true → ledgerMem (processEntries env t l es).1 k = true := by
  intro es
  induction es with
  | nil => intro l k h; simpa [processEntries] using h
  | cons e es ih =>
    intro l k h
    simp only [processEntries]
    exact ih _ _ (processEntry_mem_mono env t l e k h)

/-- A whole run preserves every ledgered key. -/
theorem feeds_mem_mono (env : Env) :
    ∀ (fs : List Feed) (l : Ledger) (k : String),
      ledgerMem l k = true → ledgerMem (process_rss_feeds env l fs).1 k = true := by
  intro fs
  induction fs with
  | nil => intro l k h; simpa [process_rss_feeds] using h
  | cons f fs ih =>
    intro l k h
    simp only [process_rss_feeds]
    apply ih
    unfold processFeed
    by_cases hf : f.ftype ≠ "rss"
    · rw [if_pos hf]; exact h
    · rw [if_neg hf]
      unfold processFeedEntries
      exact processEntries_mem_mono env f.title _ l k h

/-- After an entry loop, none of its entries can be accepted against the
resulting ledger. -/
theorem processEntries_post (env : Env) (t : String) :
    ∀ (es : List Entry) (l : Ledger),
      ∀ e ∈ es, entryNotAcceptable env (processEntries env t l es).1 e := by
  intro es
  induction es with
  | nil => intro l e he; cases he
  | cons e0 es ih =>
    intro l e he
    simp only [processEntries]
    rcases List.mem_cons.mp he with rfl | hmem
    · exact entryNotAcceptable_mono env env _ _ e rfl rfl le_rfl rfl rfl
        (fun k hk => processEntries_mem_mono env t es _ k hk)
        (processEntry_post env t l e)
    · exact ih _ e hmem

/-- After a whole run, no examined entry of any catalog feed can be
accepted against the final ledger. -/
theorem feeds_post (env : Env) :
    ∀ (fs : List Feed) (l : Ledger),
      ∀ f ∈ fs, f.ftype = "rss" →
        ∀ e ∈ (env.fetch f.url).take 50,
          entryNotAcceptable env (process_rss_feeds env l fs).1 e := by
  intro fs
  induction fs with
  | nil => intro l f hf; cases hf
  | cons f0 fs ih =>
    intro l f hf hrss e he
    simp only [process_rss_feeds]
    rcases List.mem_cons.mp hf with rfl | hmem
    · have h1 : entryNotAcceptable env (processFeed env l f).1 e := by
        unfold processFeed
        rw [if_neg (by simp [hrss])]
        unfold processFeedEntries
        exact processEntries_post env f.title _ _ e he
      exact entryNotAcceptable_mono env env _ _ e rfl rfl le_rfl rfl rfl
        (fun k hk => feeds_mem_mono env fs _ k hk) h1
    · exact ih _ f hmem hrss e he

/-- An entry loop over entries none of which can be accepted returns the
ledger unchanged and an empty batch. -/
theorem processEntries_stall (env : Env) (t : String) :
    ∀ (es : List Entry) (l : Ledger),
      (∀ e ∈ es, entryNotAcceptable env l e) →
      processEntries env t l es = (l, []) := by
  intro es
  induction es with
  | nil => intro l _; rfl
  | cons e es ih =>
    intro l h
    obtain ⟨ha, hb⟩ := processEntry_stay env t l e (h e (by simp))
    simp only [processEntries, ha, hb]
    rw [ih l (fun e' he' => h e' (List.mem_cons_of_mem _ he'))]

/-- A run over feeds none of whose examined entries can be accepted returns
the ledger unchanged and an empty batch. -/
theorem feeds_stall (env : Env) :
    ∀ (fs : List Feed) (l : Ledger),
      (∀ f ∈ fs, f.ftype = "rss" →
        ∀ e ∈ (env.fetch f.url).take 50, entryNotAcceptable env l e) →
      process_rss_feeds env l fs = (l, []) := by
  intro fs
  induction fs with
  | nil => intro l _; rfl
  | cons f fs ih =>
    intro l h
    have hf : processFeed env l f = (l, []) := by
      unfold processFeed
      by_cases hr : f.ftype ≠ "rss"
      · rw [if_pos hr]
      · rw [if_neg hr]
        unfold processFeedEntries
        exact processEntries_stall env f.title _ l
          (h f (by simp) (not_ne_iff.mp hr))
    simp only [process_rss_feeds, hf]
    rw [ih l (fun f' hf' hr' e he' => h f' (List.mem_cons_of_mem _ hf') hr' e he')]
    rfl

/-! ## C2 — Per-entry transition order -/

/-- C2: the per-entry checks fire strictly in source order — duplicate or
missing identifier first, then staleness, then keyword rejection, then
acceptance, which produces exactly one item and inserts the identifier into
the ledger valued by the current timestamp — and an item is produced if and
only if the entry has an identifier that is not ledgered, passes the
Recency Filter, and matches the keyword list (empty list matches all). -/
theorem processEntry_transitions :
    ∀ (env : Env) (t : String) (l : Ledger) (e : Entry),
      ((e.link.getD "" = "" ∨ ledgerMem l (e.link.getD "") = true) →
        processEntry env t l e = (l, none, .skippedDup))
      ∧ (e.link.getD "" ≠ "" → ledgerMem l (e.link.getD "") = false →
          is_recent env.parseDate env.nowUtc env.daysBack e = false →
          processEntry env t l e = (l, none, .skippedStale))
      ∧ (e.link.getD "" ≠ "" → ledgerMem l (e.link.getD "") = false →
          is_recent env.parseDate env.nowUtc env.daysBack e = true →
          (contains_keywords env.keywords
            ((e.title.getD "") ++ " " ++ extract_content env.soup e)).1 = false →
          processEntry env t l e = (l, none, .rejected))
      ∧ (e.link.getD "" ≠ "" → ledgerMem l (e.link.getD "") = false →
          is_recent env.parseDate env.nowUtc env.daysBack e = true →
          (contains_keywords env.keywords
            ((e.title.getD "") ++ " " ++ extract_content env.soup e)).1 = true →
          processEntry env t l e
            = (ledgerInsert l (e.link.getD "") env.nowIso,
               some { id := e.link.getD "", title := e.title.getD "",
                      content := extract_content env.soup e,
                      summary := generate_summary (extract_content env.soup e)
                        (e.title.getD "")
                        (contains_keywords env.keywords
                          ((e.title.getD "") ++ " " ++ extract_content env.soup e)).2,
                      url := e.link.getD "", date := e.published.getD "",
                      source := t, source_type := "rss",
                      keywords := (contains_keywords env.keywords
                        ((e.title.getD "") ++ " " ++ extract_content env.soup e)).2,
                      entities := extract_entities
                        ((e.title.getD "") ++ " " ++ extract_content env.soup e) },
               .accepted))
      ∧ ((processEntry env t l e).2.1.isSome
          = (decide (e.link.getD "" ≠ "") && !ledgerMem l (e.link.getD "")
             && is_recent env.parseDate env.nowUtc env.daysBack e
             && (contains_keywords env.keywords
                  ((e.title.getD "") ++ " " ++ extract_content env.soup e)).1)) := by
  intro env t l e
  refine ⟨?_, ?_, ?_, ?_, ?_⟩
  · rintro (h | h)
    · simp [processEntry, h]
    · simp [processEntry, h]
  · intro h1 h2 h3
    simp [processEntry, h1, h2, h3]
  · intro h1 h2 h3 h4
    simp [processEntry, h1, h2, h3, h4]
  · intro h1 h2 h3 h4
    simp [processEntry, h1, h2, h3, h4]
  · by_cases h1 : e.link.getD "" = ""
    · simp [processEntry, h1]
    · by_cases h2 : ledgerMem l (e.link.getD "") = true
      · simp [processEntry, h1, h2]
      · rw [Bool.not_eq_true] at h2
        by_cases h3 : is_recent env.parseDate env.nowUtc env.daysBack e = true
        · by_cases h4 : (contains_keywords env.keywords
              ((e.title.getD "") ++ " " ++ extract_content env.soup e)).1 = true
          · simp [processEntry, h1, h2, h3, h4]
          · rw [Bool.not_eq_true] at h4
            simp [processEntry, h1, h2, h3, h4]
        · rw [Bool.not_eq_true] at h3
          simp [processEntry, h1, h2, h3]

/-- Witness for C2: with an empty keyword list (admit-all) a fresh entry is
accepted, producing exactly one item and ledgering its identifier; the same
entry against a ledger already holding the identifier is skipped as a
duplicate. -/
theorem processEntry_transitions_witness :
    processEntry wEnv "Example" [] wEntry
      = ([("http://e/1", "2026-10-12T00:00:00")],
         some { id := "http://e/1", title := "", content := "", summary := ".",
                url := "http://e/1", date := "", source := "Example",
                source_type := "rss", keywords := [],
                entities := {} },
         .accepted)
    ∧ processEntry wEnv "Example" [("http://e/1", "x")] wEntry
      = ([("http://e/1", "x")], none, .skippedDup) := by
  constructor
  · exact ((processEntry_transitions wEnv "Example" [] wEntry).2.2.2.1
      (by decide) (by decide) (by decide) (by decide)).trans (by decide)
  · exact (processEntry_transitions wEnv "Example" [("http://e/1", "x")] wEntry).1
      (Or.inr (by decide))

/-! ## C1 — Dedup and idempotence -/

/-- C1: a ledgered identifier is always skipped without ledger change or
item; an accepted entry's identifier is in the resulting ledger; and a
second run over the same catalog with the same upstream entries, keywords,
date parser, lookback and normalizer, at the same or a later time, starting
from the first run's persisted ledger, returns that ledger unchanged and
zero IntelligenceItems. -/
theorem orchestrator_idempotent :
    ∀ (env env2 : Env) (feeds : List Feed) (l0 : Ledger),
      env2.keywords = env.keywords → env2.daysBack = env.daysBack →
      env.nowUtc ≤ env2.nowUtc → env2.parseDate = env.parseDate →
      env2.soup = env.soup → env2.fetch = env.fetch →
      process_rss_feeds env2 (process_rss_feeds env l0 feeds).1 feeds
        = ((process_rss_feeds env l0 feeds).1, [])
      ∧ (∀ (l : Ledger) (t : String) (e : Entry),
          ledgerMem l (e.link.getD "") = true →
          processEntry env t l e = (l, none, .skippedDup))
      ∧ (∀ (l : Ledger) (t : String) (e : Entry) (it : Item),
          (processEntry env t l e).2.1 = some it →
          ledgerMem (processEntry env t l e).1 it.id = true) := by
  intro env env2 feeds l0 hk hd hn hp hs hf
  refine ⟨?_, ?_, ?_⟩
  · apply feeds_stall
    intro f hfm hrss e he
    rw [hf] at he
    exact entryNotAcceptable_mono env env2 _ _ e hk hd hn hp hs (fun k hk2 => hk2)
      (feeds_post env feeds l0 f hfm hrss e he)
  · intro l t e h
    simp [processEntry, h]
  · intro l t e it h
    rcases processEntry_cases env t l e with ⟨heq, _⟩ | ⟨heq, _⟩ | ⟨heq, _⟩ |
      ⟨_, _, _, _, h5, h6, _⟩
    · rw [heq] at h; cases h
    · rw [heq] at h; cases h
    · rw [heq] at h; cases h
    · rw [h] at h6
      simp only [Option.map_some', Option.some.injEq] at h6
      rw [h5, h6]
      exact ledgerMem_insert_self l (e.link.getD "") env.nowIso

/-- Witness for C1: one feed with one entry — the second run over the
persisted ledger returns it unchanged with zero items, and a ledgered
identifier is skipped as a duplicate. -/
theorem orchestrator_idempotent_witness :
    process_rss_feeds wEnv (process_rss_feeds wEnv [] [wFeed]).1 [wFeed]
      = ((process_rss_feeds wEnv [] [wFeed]).1, [])
    ∧ processEntry wEnv "Example" [("http://e/1", "t")] wEntry
      = ([("http://e/1", "t")], none, .skippedDup) :=
  ⟨(orchestrator_idempotent wEnv wEnv [wFeed] [] rfl rfl le_rfl rfl rfl rfl).1,
   (orchestrator_idempotent wEnv wEnv [wFeed] [] rfl rfl le_rfl rfl rfl rfl).2.1
     [("http://e/1", "t")] "Example" wEntry (by decide)⟩

end FeedForward
